import Mathlib

/-!
Verification development for the rgbd surface-normal estimation engine
(src/rgbd/src/normal.cpp).  The numeric code is embedded shallowly over the
real numbers: image grids become total functions from integer pixel
coordinates, 3-vectors and 3x3 matrices become explicit records of reals, and
the IEEE invalidity sentinel (NaN) at a pixel is modelled by the value
Option.none of an optional real.  External numeric primitives the source
delegates to (box filtering, separable convolution, bilinear remapping,
back-projection) are either modelled from their specification or passed as
explicit collaborator arguments, as noted at each definition.
-/

/-- Pixel coordinates: a pair of integer column and row indices. -/
abbrev Pix := Int × Int

/-- A 3-vector of reals, the element type of point fields and normal fields. -/
structure Vec3 where
  x : Real
  y : Real
  z : Real

theorem Vec3.ext_iff2 (u v : Vec3) : u = v ↔ u.x = v.x ∧ u.y = v.y ∧ u.z = v.z := by
  constructor
  · intro h; subst h; exact ⟨rfl, rfl, rfl⟩
  · rintro ⟨h1, h2, h3⟩; cases u; cases v; simp_all

noncomputable section

/-- The zero 3-vector. -/
def vzero : Vec3 := ⟨0, 0, 0⟩

/-- Componentwise negation of a 3-vector. -/
def vneg (v : Vec3) : Vec3 := ⟨-v.x, -v.y, -v.z⟩

/-- Division of a 3-vector by a scalar, componentwise (cv::Vec operator/). -/
def vdivs (v : Vec3) (s : Real) : Vec3 := ⟨v.x / s, v.y / s, v.z / s⟩

/-- Cross product of two 3-vectors (cv::Vec::cross). -/
def vcross (u v : Vec3) : Vec3 :=
  ⟨u.y * v.z - u.z * v.y, u.z * v.x - u.x * v.z, u.x * v.y - u.y * v.x⟩

/-- Embedding of norm_vec (normal.cpp lines 46-52): the Euclidean norm of a
3-vector, computed as the square root of the sum of squared components. -/
def norm_vec (v : Vec3) : Real :=
  Real.sqrt (v.x * v.x + v.y * v.y + v.z * v.z)

/-- Embedding of the vector overload of signNormal (normal.cpp lines 126-139):
divide by the norm, negating first when the z component is positive, so the
result faces the camera. -/
def signNormal3 (v : Vec3) : Vec3 :=
  if 0 < v.z then vdivs (vneg v) (norm_vec v) else vdivs v (norm_vec v)

/-- Embedding of the scalar overload of signNormal (normal.cpp lines 143-161):
multiply each component by the reciprocal norm, with the same sign policy. -/
def signNormalR (a b c : Real) : Vec3 :=
  let n : Real := 1 / Real.sqrt (a * a + b * b + c * c)
  if 0 < c then ⟨-a * n, -b * n, -c * n⟩ else ⟨a * n, b * n, c * n⟩

theorem signNormalR_eq_signNormal3 (a b c : Real) :
    signNormalR a b c = signNormal3 ⟨a, b, c⟩ := by
  unfold signNormalR signNormal3 norm_vec vdivs vneg
  dsimp only
  by_cases h : 0 < c
  · rw [if_pos h, if_pos h, Vec3.ext_iff2]
    refine ⟨?_, ?_, ?_⟩ <;> dsimp only <;> ring
  · rw [if_neg h, if_neg h, Vec3.ext_iff2]
    refine ⟨?_, ?_, ?_⟩ <;> dsimp only <;> ring

theorem sumsq_pos_of_ne_zero {v : Vec3} (h : v ≠ vzero) :
    0 < v.x * v.x + v.y * v.y + v.z * v.z := by
  have hnn : (0:Real) ≤ v.x * v.x + v.y * v.y + v.z * v.z := by
    nlinarith [mul_self_nonneg v.x, mul_self_nonneg v.y, mul_self_nonneg v.z]
  rcases lt_or_eq_of_le hnn with hlt | heq
  · exact hlt
  · exfalso
    apply h
    have hx : v.x = 0 := by nlinarith [mul_self_nonneg v.x, mul_self_nonneg v.y, mul_self_nonneg v.z]
    have hy : v.y = 0 := by nlinarith [mul_self_nonneg v.x, mul_self_nonneg v.y, mul_self_nonneg v.z]
    have hz : v.z = 0 := by nlinarith [mul_self_nonneg v.x, mul_self_nonneg v.y, mul_self_nonneg v.z]
    rw [Vec3.ext_iff2]
    exact ⟨hx, hy, hz⟩

theorem norm_vec_pos {v : Vec3} (h : v ≠ vzero) : 0 < norm_vec v :=
  Real.sqrt_pos.mpr (sumsq_pos_of_ne_zero h)

theorem norm_vec_vneg (v : Vec3) : norm_vec (vneg v) = norm_vec v := by
  unfold norm_vec vneg
  ring_nf

theorem norm_vec_vdivs (v : Vec3) {s : Real} (hs : 0 < s) :
    norm_vec (vdivs v s) = norm_vec v / s := by
  unfold norm_vec vdivs
  dsimp only
  have hsum : v.x / s * (v.x / s) + v.y / s * (v.y / s) + v.z / s * (v.z / s)
      = (v.x * v.x + v.y * v.y + v.z * v.z) / (s * s) := by
    field_simp
  have hnn : (0:Real) ≤ v.x * v.x + v.y * v.y + v.z * v.z := by
    nlinarith [mul_self_nonneg v.x, mul_self_nonneg v.y, mul_self_nonneg v.z]
  rw [hsum, Real.sqrt_div hnn, Real.sqrt_mul_self hs.le]

theorem norm_vec_signNormal3 {v : Vec3} (h : v ≠ vzero) :
    norm_vec (signNormal3 v) = 1 := by
  unfold signNormal3
  have hn := norm_vec_pos h
  by_cases hz : 0 < v.z
  · rw [if_pos hz, norm_vec_vdivs _ hn, norm_vec_vneg, div_self hn.ne.symm]
  · rw [if_neg hz, norm_vec_vdivs _ hn, div_self hn.ne.symm]

theorem signNormal3_z_nonpos {v : Vec3} (h : v ≠ vzero) :
    (signNormal3 v).z ≤ 0 := by
  unfold signNormal3
  have hn := norm_vec_pos h
  by_cases hz : 0 < v.z
  · rw [if_pos hz]
    exact div_nonpos_iff.mpr (Or.inr ⟨by dsimp only [vneg]; linarith, hn.le⟩)
  · rw [if_neg hz]
    exact div_nonpos_iff.mpr (Or.inr ⟨le_of_not_lt hz, hn.le⟩)

theorem vdivs_one (v : Vec3) : vdivs v 1 = v := by
  unfold vdivs
  rw [Vec3.ext_iff2]
  norm_num

theorem signNormal3_idem {v : Vec3} (h : v ≠ vzero) :
    signNormal3 (signNormal3 v) = signNormal3 v := by
  have hz : ¬ 0 < (signNormal3 v).z := not_lt.mpr (signNormal3_z_nonpos h)
  conv_lhs => rw [signNormal3]
  rw [if_neg hz, norm_vec_signNormal3 h, vdivs_one]

/-- C3: signNormal applied to any nonzero 3-vector returns a unit vector whose
z component is nonpositive, the result is the normalized input negated exactly
when the input z component is positive, and applying signNormal twice gives the
same result as applying it once. -/
theorem c3_signNormal_unit_facing_idem (v : Vec3) (h : v ≠ vzero) :
    norm_vec (signNormal3 v) = 1 ∧
    (signNormal3 v).z ≤ 0 ∧
    (0 < v.z → signNormal3 v = vdivs (vneg v) (norm_vec v)) ∧
    (¬ 0 < v.z → signNormal3 v = vdivs v (norm_vec v)) ∧
    signNormal3 (signNormal3 v) = signNormal3 v := by
  refine ⟨norm_vec_signNormal3 h, signNormal3_z_nonpos h, ?_, ?_, signNormal3_idem h⟩
  · intro hz; unfold signNormal3; rw [if_pos hz]
  · intro hz; unfold signNormal3; rw [if_neg hz]

/-- Witness for C3 at the concrete nonzero vector (3, 4, 0). -/
theorem c3_witness :
    (⟨3, 4, 0⟩ : Vec3) ≠ vzero ∧
    (norm_vec (signNormal3 ⟨3, 4, 0⟩) = 1 ∧
     (signNormal3 (⟨3, 4, 0⟩ : Vec3)).z ≤ 0 ∧
     (0 < (⟨3, 4, 0⟩ : Vec3).z → signNormal3 ⟨3, 4, 0⟩ = vdivs (vneg ⟨3, 4, 0⟩) (norm_vec ⟨3, 4, 0⟩)) ∧
     (¬ 0 < (⟨3, 4, 0⟩ : Vec3).z → signNormal3 ⟨3, 4, 0⟩ = vdivs ⟨3, 4, 0⟩ (norm_vec ⟨3, 4, 0⟩)) ∧
     signNormal3 (signNormal3 ⟨3, 4, 0⟩) = signNormal3 ⟨3, 4, 0⟩) := by
  have hne : (⟨3, 4, 0⟩ : Vec3) ≠ vzero := by
    intro hc
    have := congrArg Vec3.x hc
    unfold vzero at this
    norm_num at this
  exact ⟨hne, c3_signNormal_unit_facing_idem ⟨3, 4, 0⟩ hne⟩

/-- A scalar image value: some x is a finite measurement, none is the NaN
invalidity sentinel (cvIsNaN tests for it). -/
abbrev FVal := Option Real

/-- Sentinel-propagating addition, after IEEE arithmetic on the float values. -/
def fadd : FVal → FVal → FVal
  | some a, some b => some (a + b)
  | _, _ => none

/-- Sentinel-propagating multiplication. -/
def fmul : FVal → FVal → FVal
  | some a, some b => some (a * b)
  | _, _ => none

/-- Sentinel-propagating division. -/
def fdiv : FVal → FVal → FVal
  | some a, some b => some (a / b)
  | _, _ => none

/-- Sentinel-propagating negation. -/
def fneg : FVal → FVal
  | some a => some (-a)
  | none => none

/-- Sentinel-propagating square root. -/
def fsqrt : FVal → FVal
  | some a => some (Real.sqrt a)
  | none => none

/-- Strict positivity test on a scalar value; a comparison against the
sentinel is false, as for IEEE NaN. -/
def fpos : FVal → Bool
  | some a => decide (0 < a)
  | none => false

/-- A 3-vector of scalar image values, the element type of a normal field
whose pixels may carry the sentinel. -/
structure FVec3 where
  x : FVal
  y : FVal
  z : FVal

/-- A fully finite 3-vector of image values. -/
def someV (v : Vec3) : FVec3 := ⟨some v.x, some v.y, some v.z⟩

/-- Embedding of the scalar overload of signNormal (lines 143-161) acting on
image values, so that a sentinel in any component propagates exactly as NaN
does through the float arithmetic of the source. -/
def signNormalS (a b c : FVal) : FVec3 :=
  let n : FVal := fdiv (some 1) (fsqrt (fadd (fadd (fmul a a) (fmul b b)) (fmul c c)))
  if fpos c then ⟨fmul (fneg a) n, fmul (fneg b) n, fmul (fneg c) n⟩
  else ⟨fmul a n, fmul b n, fmul c n⟩

theorem signNormalS_some (a b c : Real) :
    signNormalS (some a) (some b) (some c) = someV (signNormalR a b c) := by
  unfold signNormalS signNormalR someV
  by_cases h : 0 < c <;>
    simp [fpos, fadd, fmul, fneg, fdiv, fsqrt, h]

/-- A 3x3 real matrix as nine explicit entries, row major. -/
structure Mat33 where
  m00 : Real
  m01 : Real
  m02 : Real
  m10 : Real
  m11 : Real
  m12 : Real
  m20 : Real
  m21 : Real
  m22 : Real

/-- Matrix-vector product of a 3x3 matrix and a 3-vector. -/
def mulMV (m : Mat33) (v : Vec3) : Vec3 :=
  ⟨m.m00 * v.x + m.m01 * v.y + m.m02 * v.z,
   m.m10 * v.x + m.m11 * v.y + m.m12 * v.z,
   m.m20 * v.x + m.m21 * v.y + m.m22 * v.z⟩

/-- The identity 3x3 matrix. -/
def ident33 : Mat33 := ⟨1, 0, 0, 0, 1, 0, 0, 0, 1⟩

/-- Modelled from the spec: centered window offsets of the 2D box (moving
average) filter collaborator for an odd window size. -/
def boxOffsets (ws : Nat) : List Int :=
  (List.range ws).map (fun k => (k : Int) - ((ws / 2 : Nat) : Int))

/-- Modelled from the spec: the 2D box filter collaborator over a square
window.  The source calls cv::boxFilter with normalize=false and a centered
anchor, i.e. a windowed sum; grids are idealized as total functions on the
integer plane, so no border rule is required. -/
def boxFilterSum (ws : Nat) (g : Pix → Real) (p : Pix) : Real :=
  ((boxOffsets ws).map
    (fun dy => ((boxOffsets ws).map (fun dx => g (p.1 + dx, p.2 + dy))).sum)).sum

/-- Box filtering of a grid of 3-vectors, channel by channel. -/
def boxFilterV (ws : Nat) (g : Pix → Vec3) (p : Pix) : Vec3 :=
  ⟨boxFilterSum ws (fun q => (g q).x) p,
   boxFilterSum ws (fun q => (g q).y) p,
   boxFilterSum ws (fun q => (g q).z) p⟩

/-- Embedding of the B field of FALS::compute (lines 279-291): the cached
direction vector divided by the measured radius, and the zero vector where the
radius carries the sentinel. -/
def falsB (V : Pix → Vec3) (r : Pix → FVal) : Pix → Vec3 :=
  fun q =>
    match r q with
    | none => vzero
    | some rv => vdivs (V q) rv

/-- The normal of FALS::compute before sign enforcement: the cached inverted
covariance matrix applied to the box-filtered B field (line 309). -/
def falsPreNormal (ws : Nat) (V : Pix → Vec3) (Minv : Pix → Mat33)
    (r : Pix → FVal) (p : Pix) : Vec3 :=
  mulMV (Minv p) (boxFilterV ws (falsB V r) p)

/-- Embedding of FALS::compute (lines 276-310): build B from the cached V
and the radius field, box filter it with the configured window, then per
pixel either copy the radius sentinel into all three output channels or emit
the sign-enforced product of the cached inverse matrix with filtered B.  The
first argument embeds the unnamed, unused 3D-point parameter of the source. -/
def falsCompute (ws : Nat) (V : Pix → Vec3) (Minv : Pix → Mat33)
    (points : Pix → Vec3) (r : Pix → FVal) : Pix → FVec3 :=
  fun p =>
    match r p with
    | none => ⟨r p, r p, r p⟩
    | some _ => someV (signNormal3 (falsPreNormal ws V Minv r p))

/-- C10: FALS::compute ignores its 3D point-field argument entirely; the
output normal field is a function of the radius grid and the cached fields V
and M inverse (plus the configured window size) only. -/
theorem c10_fals_ignores_points (ws : Nat) (V : Pix → Vec3) (Minv : Pix → Mat33)
    (points1 points2 : Pix → Vec3) (r : Pix → FVal) :
    falsCompute ws V Minv points1 r = falsCompute ws V Minv points2 r := rfl

/-- Integer interval [a, b) as a list, the index set of a C for loop. -/
def intRange (a b : Int) : List Int :=
  (List.range (b - a).toNat).map (fun (k : Nat) => a + (k : Int))

theorem mem_intRange {a b z : Int} : z ∈ intRange a b ↔ a ≤ z ∧ z < b := by
  rw [intRange, List.mem_map]
  constructor
  · intro h
    obtain ⟨k, hk, hz⟩ := h
    rw [List.mem_range] at hk
    omega
  · intro h
    exact ⟨(z - a).toNat, List.mem_range.mpr (by omega), by omega⟩

/-- Embedding of the inverse intrinsic matrix LINEMOD::computeImpl builds by
hand (lines 423-430), starting from the identity and exploiting that K is
upper triangular with K(2,2) = 1. -/
def linemodKinv (K : Mat33) : Mat33 :=
  { ident33 with
    m00 := 1 / K.m00
    m01 := -K.m01 / (K.m00 * K.m11)
    m02 := (K.m01 * K.m12 - K.m02 * K.m11) / (K.m00 * K.m11)
    m11 := 1 / K.m11
    m12 := -K.m12 / K.m11 }

/-- Embedding of multiply_by_K_inv (lines 328-335): product of the upper
triangular inverse intrinsic matrix with a vector, using K_inv(2,2) = 1 and
the zero entries below the diagonal. -/
def multiply_by_K_inv (Ki : Mat33) (a b c : Real) : Vec3 :=
  ⟨Ki.m00 * a + Ki.m01 * b + Ki.m02 * c, Ki.m11 * b + Ki.m12 * c, c⟩

/-- The sparse 3x3 sample offsets of LINEMOD::computeImpl (lines 403-421):
r = 5, sample_step = r, so the loops over j and i yield the nine offsets
(i, j) with i, j in {-5, 0, 5}, inner loop over i first. -/
def linemodOffsets : List (Int × Int) :=
  [(-5, -5), (0, -5), (5, -5), (-5, 0), (0, 0), (5, 0), (-5, 5), (0, 5), (5, 5)]

/-- Accumulator of the normal-equation sums of LINEMOD::computeImpl (lines
445-460).  A[2] of the source is initialized but never accumulated or read,
so it is omitted; the A entries are C longs, hence integers even when depth
values are floats. -/
structure LAccum where
  A0 : Int
  A1 : Int
  A3 : Int
  b0 : Real
  b1 : Real

/-- One iteration of the sample loop (lines 449-460): compute the depth
difference of the sampled neighbor against the center, skip the sample when
its magnitude exceeds the threshold 50, otherwise accumulate. -/
def laccumStep (dep : Pix → Real) (x y : Int) (d : Real) (s : LAccum)
    (off : Int × Int) : LAccum :=
  let delta := dep (x + off.1, y + off.2) - d
  if |delta| > 50 then s
  else ⟨s.A0 + off.1 * off.1, s.A1 + off.1 * off.2, s.A3 + off.2 * off.2,
        s.b0 + (off.1 : Real) * delta, s.b1 + (off.2 : Real) * delta⟩

/-- The accumulated sums at a center pixel: fold of the sample loop over the
nine sparse offsets starting from zeroed accumulators. -/
def linemodAccum (dep : Pix → Real) (x y : Int) : LAccum :=
  linemodOffsets.foldl (laccumStep dep x y (dep (x, y))) ⟨0, 0, 0, 0, 0⟩

/-- The depth gradient dx of LINEMOD::computeImpl (line 467): the first
component of the 2x2 solve, intentionally left scaled by the determinant. -/
def linemodDx (dep : Pix → Real) (x y : Int) : Real :=
  ((linemodAccum dep x y).A3 : Real) * (linemodAccum dep x y).b0
    - ((linemodAccum dep x y).A1 : Real) * (linemodAccum dep x y).b1

/-- The depth gradient dy of LINEMOD::computeImpl (line 468). -/
def linemodDy (dep : Pix → Real) (x y : Int) : Real :=
  -((linemodAccum dep x y).A1 : Real) * (linemodAccum dep x y).b0
    + ((linemodAccum dep x y).A0 : Real) * (linemodAccum dep x y).b1

/-- The pre-normalization normal of LINEMOD::computeImpl at one pixel (lines
462-477): closed-form 2x2 solve left scaled by the determinant, the two
tangent differences through multiply_by_K_inv, and their cross product. -/
def linemodPreNormal (K : Mat33) (dep : Pix → Real) (x y : Int) : Vec3 :=
  let d := dep (x, y)
  let s := linemodAccum dep x y
  let det : Int := s.A0 * s.A3 - s.A1 * s.A1
  let dx := linemodDx dep x y
  let dy := linemodDy dep x y
  let Ki := linemodKinv K
  let X1 := multiply_by_K_inv Ki (d * (det : Real) + ((x : Real) + 1) * dx) ((y : Real) * dx) dx
  let X2 := multiply_by_K_inv Ki ((x : Real) * dy) (d * (det : Real) + ((y : Real) + 1) * dy) dy
  vcross X1 X2

/-- The normal LINEMOD::computeImpl writes at one pixel (line 478). -/
def linemodPixel (K : Mat33) (dep : Pix → Real) (x y : Int) : Vec3 :=
  signNormal3 (linemodPreNormal K dep x y)

/-- The pixels the loops of LINEMOD::computeImpl visit (lines 435 and 440):
y from r to rows - r - 1 exclusive and x from r to cols - r - 1 exclusive,
with r = 5. -/
def linemodPositions (rows cols : Int) : List Pix :=
  (intRange 5 (rows - 5 - 1)).flatMap
    (fun y => (intRange 5 (cols - 5 - 1)).map (fun x => ((x, y) : Pix)))

/-- Embedding of LINEMOD::computeImpl (lines 399-486): the output buffer with
the computed normal stored at every visited pixel and all other entries left
as they were. -/
def linemodComputeImpl (K : Mat33) (rows cols : Int) (dep : Pix → Real)
    (normals : Pix → Vec3) : Pix → Vec3 :=
  (linemodPositions rows cols).foldl
    (fun buf p => fun q => if q = p then linemodPixel K dep p.1 p.2 else buf q)
    normals

theorem foldWrite_eq (f : Int → Int → Vec3) (ps : List Pix) (init : Pix → Vec3) (q : Pix) :
    (ps.foldl (fun buf p => fun t => if t = p then f p.1 p.2 else buf t) init) q
    = if q ∈ ps then f q.1 q.2 else init q := by
  induction ps generalizing init with
  | nil => simp
  | cons hd tl ih =>
    simp only [List.foldl_cons, List.mem_cons, ih]
    by_cases hq : q ∈ tl
    · rw [if_pos hq, if_pos (Or.inr hq)]
    · rw [if_neg hq]
      by_cases hh : q = hd
      · subst hh
        rw [if_pos rfl, if_pos (Or.inl rfl)]
      · rw [if_neg hh, if_neg (by tauto)]

theorem mem_linemodPositions {rows cols : Int} {q : Pix} :
    q ∈ linemodPositions rows cols ↔
      5 ≤ q.1 ∧ q.1 < cols - 5 - 1 ∧ 5 ≤ q.2 ∧ q.2 < rows - 5 - 1 := by
  obtain ⟨x, y⟩ := q
  unfold linemodPositions
  simp only [List.mem_flatMap, List.mem_map, mem_intRange, Prod.mk.injEq]
  constructor
  · rintro ⟨y0, hy, x0, hx, hxy⟩
    obtain ⟨rfl, rfl⟩ := hxy
    tauto
  · rintro ⟨h1, h2, h3, h4⟩
    exact ⟨y, ⟨h3, h4⟩, x, ⟨h1, h2⟩, rfl, rfl⟩

theorem linemodComputeImpl_eq (K : Mat33) (rows cols : Int) (dep : Pix → Real)
    (init : Pix → Vec3) (q : Pix) :
    linemodComputeImpl K rows cols dep init q
      = if 5 ≤ q.1 ∧ q.1 < cols - 5 - 1 ∧ 5 ≤ q.2 ∧ q.2 < rows - 5 - 1
        then linemodPixel K dep q.1 q.2 else init q := by
  unfold linemodComputeImpl
  rw [foldWrite_eq (fun a b => linemodPixel K dep a b)]
  by_cases h : q ∈ linemodPositions rows cols
  · rw [if_pos h, if_pos (mem_linemodPositions.mp h)]
  · rw [if_neg h, if_neg (fun hc => h (mem_linemodPositions.mpr hc))]

/-- C5 (amended): LINEMOD writes the computed normal exactly at the pixels
with 5 ≤ x < cols - 6 and 5 ≤ y < rows - 6 — the loops stop one pixel short
of the r = 5 margin on the right and bottom borders — and leaves every other
pixel of the output buffer unchanged. -/
theorem c5_linemod_written_region (K : Mat33) (rows cols : Int) (dep : Pix → Real)
    (init : Pix → Vec3) (q : Pix) :
    linemodComputeImpl K rows cols dep init q
      = if 5 ≤ q.1 ∧ q.1 < cols - 5 - 1 ∧ 5 ≤ q.2 ∧ q.2 < rows - 5 - 1
        then linemodPixel K dep q.1 q.2 else init q :=
  linemodComputeImpl_eq K rows cols dep init q

/-- C5 counterexample: on a 12x12 grid the claim asserts pixel (6,6), which
satisfies 5 ≤ 6 < 12 - 5, is written with a computed normal, yet
LINEMOD::computeImpl leaves the output buffer untouched there: for one and
the same depth image the output at (6,6) still equals whatever value the
buffer started with, for two different initial buffers. -/
theorem c5_counterexample :
    ((5:Int) ≤ 6 ∧ (6:Int) < 12 - 5) ∧
    linemodComputeImpl ident33 12 12 (fun _ => 0) (fun _ => ⟨7, 8, 9⟩) (6, 6) = ⟨7, 8, 9⟩ ∧
    linemodComputeImpl ident33 12 12 (fun _ => 0) (fun _ => ⟨1, 2, 3⟩) (6, 6) = ⟨1, 2, 3⟩ := by
  refine ⟨⟨by norm_num, by norm_num⟩, ?_, ?_⟩ <;>
  · rw [linemodComputeImpl_eq]
    norm_num

/-- The sample set the spec describes for LINEMOD: among the nine sparse
offsets, those whose depth difference against the center does not exceed 50
in magnitude. -/
def specAcceptedSamples (dep : Pix → Real) (x y : Int) : List (Int × Int) :=
  linemodOffsets.filter fun o => decide (|dep (x + o.1, y + o.2) - dep (x, y)| ≤ 50)

theorem laccum_foldl_char (dep : Pix → Real) (x y : Int) (d : Real)
    (l : List (Int × Int)) (s : LAccum) :
    (l.foldl (laccumStep dep x y d) s) =
      ⟨s.A0 + ((l.filter fun o => decide (|dep (x + o.1, y + o.2) - d| ≤ 50)).map
          (fun o => o.1 * o.1)).sum,
       s.A1 + ((l.filter fun o => decide (|dep (x + o.1, y + o.2) - d| ≤ 50)).map
          (fun o => o.1 * o.2)).sum,
       s.A3 + ((l.filter fun o => decide (|dep (x + o.1, y + o.2) - d| ≤ 50)).map
          (fun o => o.2 * o.2)).sum,
       s.b0 + ((l.filter fun o => decide (|dep (x + o.1, y + o.2) - d| ≤ 50)).map
          (fun o => (o.1 : Real) * (dep (x + o.1, y + o.2) - d))).sum,
       s.b1 + ((l.filter fun o => decide (|dep (x + o.1, y + o.2) - d| ≤ 50)).map
          (fun o => (o.2 : Real) * (dep (x + o.1, y + o.2) - d))).sum⟩ := by
  induction l generalizing s with
  | nil => simp
  | cons hd tl ih =>
    simp only [List.foldl_cons]
    by_cases h : |dep (x + hd.1, y + hd.2) - d| ≤ 50
    · have hstep : laccumStep dep x y d s hd =
          ⟨s.A0 + hd.1 * hd.1, s.A1 + hd.1 * hd.2, s.A3 + hd.2 * hd.2,
           s.b0 + (hd.1 : Real) * (dep (x + hd.1, y + hd.2) - d),
           s.b1 + (hd.2 : Real) * (dep (x + hd.1, y + hd.2) - d)⟩ := by
        unfold laccumStep
        rw [if_neg (not_lt.mpr h)]
      rw [hstep, ih, List.filter_cons_of_pos (by simp [h])]
      simp only [List.map_cons, List.sum_cons, LAccum.mk.injEq]
      refine ⟨by ring, by ring, by ring, by ring, by ring⟩
    · have hstep : laccumStep dep x y d s hd = s := by
        unfold laccumStep
        rw [if_pos (not_le.mp h)]
      rw [hstep, ih, List.filter_cons_of_neg (by simp [h])]

/-- C6: the accumulated LINEMOD sums range exactly over the sparse samples
whose depth difference from the center is at most 50 in magnitude, and the
gradients are the closed-form 2x2 adjugate solution, i.e. the exact solution
of the normal equations left scaled by the system determinant. -/
theorem c6_linemod_sums_and_gradients (dep : Pix → Real) (x y : Int) :
    (linemodAccum dep x y).A0
        = ((specAcceptedSamples dep x y).map (fun o => o.1 * o.1)).sum ∧
    (linemodAccum dep x y).A1
        = ((specAcceptedSamples dep x y).map (fun o => o.1 * o.2)).sum ∧
    (linemodAccum dep x y).A3
        = ((specAcceptedSamples dep x y).map (fun o => o.2 * o.2)).sum ∧
    (linemodAccum dep x y).b0
        = ((specAcceptedSamples dep x y).map
            (fun o => (o.1 : Real) * (dep (x + o.1, y + o.2) - dep (x, y)))).sum ∧
    (linemodAccum dep x y).b1
        = ((specAcceptedSamples dep x y).map
            (fun o => (o.2 : Real) * (dep (x + o.1, y + o.2) - dep (x, y)))).sum ∧
    linemodDx dep x y
        = ((linemodAccum dep x y).A3 : Real) * (linemodAccum dep x y).b0
          - ((linemodAccum dep x y).A1 : Real) * (linemodAccum dep x y).b1 ∧
    linemodDy dep x y
        = -((linemodAccum dep x y).A1 : Real) * (linemodAccum dep x y).b0
          + ((linemodAccum dep x y).A0 : Real) * (linemodAccum dep x y).b1 ∧
    ((linemodAccum dep x y).A0 : Real) * linemodDx dep x y
        + ((linemodAccum dep x y).A1 : Real) * linemodDy dep x y
      = (((linemodAccum dep x y).A0 * (linemodAccum dep x y).A3
          - (linemodAccum dep x y).A1 * (linemodAccum dep x y).A1 : Int) : Real)
          * (linemodAccum dep x y).b0 ∧
    ((linemodAccum dep x y).A1 : Real) * linemodDx dep x y
        + ((linemodAccum dep x y).A3 : Real) * linemodDy dep x y
      = (((linemodAccum dep x y).A0 * (linemodAccum dep x y).A3
          - (linemodAccum dep x y).A1 * (linemodAccum dep x y).A1 : Int) : Real)
          * (linemodAccum dep x y).b1 := by
  have hchar := laccum_foldl_char dep x y (dep (x, y)) linemodOffsets ⟨0, 0, 0, 0, 0⟩
  have hA0 : (linemodAccum dep x y).A0
      = ((specAcceptedSamples dep x y).map (fun o => o.1 * o.1)).sum := by
    rw [linemodAccum, hchar]; simp [specAcceptedSamples]
  have hA1 : (linemodAccum dep x y).A1
      = ((specAcceptedSamples dep x y).map (fun o => o.1 * o.2)).sum := by
    rw [linemodAccum, hchar]; simp [specAcceptedSamples]
  have hA3 : (linemodAccum dep x y).A3
      = ((specAcceptedSamples dep x y).map (fun o => o.2 * o.2)).sum := by
    rw [linemodAccum, hchar]; simp [specAcceptedSamples]
  have hb0 : (linemodAccum dep x y).b0
      = ((specAcceptedSamples dep x y).map
          (fun o => (o.1 : Real) * (dep (x + o.1, y + o.2) - dep (x, y)))).sum := by
    rw [linemodAccum, hchar]; simp [specAcceptedSamples]
  have hb1 : (linemodAccum dep x y).b1
      = ((specAcceptedSamples dep x y).map
          (fun o => (o.2 : Real) * (dep (x + o.1, y + o.2) - dep (x, y)))).sum := by
    rw [linemodAccum, hchar]; simp [specAcceptedSamples]
  refine ⟨hA0, hA1, hA3, hb0, hb1, rfl, rfl, ?_, ?_⟩ <;>
  · unfold linemodDx linemodDy
    push_cast
    ring

/-- The per-cell loop of SRI::compute on the angular grid (lines 623-648):
where the resampled radius carries the sentinel, copy it into all three
channels; elsewhere combine the cached R_hat entries with the derivative to
radius ratios and sign-enforce.  The resampled radius and its two derivative
grids are inputs here; they are produced by collaborator primitives. -/
def sriCellNormals (Rhat : Pix → Mat33) (r r_theta r_phi : Pix → FVal) :
    Pix → FVec3 :=
  fun q =>
    match r q with
    | none => ⟨r q, r q, r q⟩
    | some rv =>
        let rtr : FVal := fdiv (r_theta q) (some rv)
        let rpr : FVal := fdiv (r_phi q) (some rv)
        signNormalS
          (fadd (fadd (some (Rhat q).m00) (fmul (some (Rhat q).m01) rtr))
                (fmul (some (Rhat q).m02) rpr))
          (fadd (some (Rhat q).m10) (fmul (some (Rhat q).m12) rpr))
          (fadd (fadd (some (Rhat q).m20) (fmul (some (Rhat q).m21) rtr))
                (fmul (some (Rhat q).m22) rpr))

/-- Embedding of SRI::compute (lines 607-655).  The two cv::remap calls and
the two cv::sepFilter2D calls are the out-of-scope resampling and separable
convolution collaborators of the spec; they are passed in as explicit
function arguments (remapR, derivTheta, derivPhi acting on scalar grids and
remapN acting on normal grids), applied exactly in the source's order: remap
the radius into the angular grid, differentiate it twice, run the per-cell
loop, remap the normals back to image space, then re-apply the scalar
signNormal to every output pixel. -/
def sriCompute (remapR : (Pix → FVal) → Pix → FVal)
    (derivTheta derivPhi : (Pix → FVal) → Pix → FVal)
    (Rhat : Pix → Mat33)
    (remapN : (Pix → FVec3) → Pix → FVec3)
    (r_non_interp : Pix → FVal) : Pix → FVec3 :=
  let r := remapR r_non_interp
  let normals := sriCellNormals Rhat r (derivTheta r) (derivPhi r)
  let out := remapN normals
  fun p => signNormalS (out p).x (out p).y (out p).z

/-- C1: at any pixel whose input radius/depth is finite and whose computed
pre-normalization normal is nonzero, the normal written by each of the three
estimators is a unit vector with nonpositive z component.  For FALS the
conditions are a finite radius and a nonzero M_inv times filtered B product;
for LINEMOD, a pixel the loops visit with a nonzero tangent cross product;
for SRI, a fully finite, nonzero normal triple entering the final sign pass
after the inverse resampling. -/
theorem c1_normals_unit_and_camera_facing
    (ws : Nat) (V : Pix → Vec3) (Minv : Pix → Mat33) (points : Pix → Vec3)
    (r : Pix → FVal) (p : Pix) (rv : Real)
    (hfin : r p = some rv)
    (hfnz : falsPreNormal ws V Minv r p ≠ vzero)
    (K : Mat33) (rows cols : Int) (dep : Pix → Real) (init : Pix → Vec3) (q : Pix)
    (hreg : 5 ≤ q.1 ∧ q.1 < cols - 5 - 1 ∧ 5 ≤ q.2 ∧ q.2 < rows - 5 - 1)
    (hlnz : linemodPreNormal K dep q.1 q.2 ≠ vzero)
    (remapR derivTheta derivPhi : (Pix → FVal) → Pix → FVal)
    (Rhat : Pix → Mat33) (remapN : (Pix → FVec3) → Pix → FVec3)
    (rni : Pix → FVal) (p2 : Pix) (a b c : Real)
    (hsout : remapN (sriCellNormals Rhat (remapR rni) (derivTheta (remapR rni))
        (derivPhi (remapR rni))) p2 = ⟨some a, some b, some c⟩)
    (hsnz : (⟨a, b, c⟩ : Vec3) ≠ vzero) :
    (∃ w : Vec3, falsCompute ws V Minv points r p = someV w ∧
        norm_vec w = 1 ∧ w.z ≤ 0) ∧
    (norm_vec (linemodComputeImpl K rows cols dep init q) = 1 ∧
        (linemodComputeImpl K rows cols dep init q).z ≤ 0) ∧
    (∃ w : Vec3, sriCompute remapR derivTheta derivPhi Rhat remapN rni p2 = someV w ∧
        norm_vec w = 1 ∧ w.z ≤ 0) := by
  refine ⟨?_, ?_, ?_⟩
  · refine ⟨signNormal3 (falsPreNormal ws V Minv r p), ?_,
      norm_vec_signNormal3 hfnz, signNormal3_z_nonpos hfnz⟩
    unfold falsCompute
    rw [hfin]
  · rw [linemodComputeImpl_eq, if_pos hreg]
    exact ⟨norm_vec_signNormal3 hlnz, signNormal3_z_nonpos hlnz⟩
  · refine ⟨signNormal3 ⟨a, b, c⟩, ?_,
      norm_vec_signNormal3 hsnz, signNormal3_z_nonpos hsnz⟩
    unfold sriCompute
    rw [hsout]
    rw [signNormalS_some, signNormalR_eq_signNormal3]

theorem boxFilterSum_one (g : Pix → Real) (p : Pix) : boxFilterSum 1 g p = g p := by
  simp [boxFilterSum, boxOffsets, List.range_succ]

theorem boxFilterV_one (g : Pix → Vec3) (p : Pix) : boxFilterV 1 g p = g p := by
  unfold boxFilterV
  rw [boxFilterSum_one, boxFilterSum_one, boxFilterSum_one]

/-- Constant direction field used by the C1 witness. -/
def wVdir : Pix → Vec3 := fun _ => ⟨0, 0, 1⟩

/-- Constant identity inverse-covariance field used by the C1 witness. -/
def wMinv : Pix → Mat33 := fun _ => ident33

/-- Constant radius field of value 1 used by the C1 witness. -/
def wRad : Pix → FVal := fun _ => some 1

/-- Constant depth image of value 1 used by the C1 witness. -/
def wDep : Pix → Real := fun _ => 1

/-- All-zero normal buffer used by the C1 witness. -/
def wInit : Pix → Vec3 := fun _ => vzero

/-- Identity resampling collaborator instance used by the C1 witness. -/
def wIdRemap : (Pix → FVal) → Pix → FVal := fun g => g

/-- Constant-sentinel derivative collaborator instance used by the C1 witness. -/
def wConstNone : (Pix → FVal) → Pix → FVal := fun _ => fun _ => none

/-- Constant inverse-resampling collaborator instance used by the C1 witness,
returning the finite normal triple (0, 0, 1) everywhere. -/
def wConstN : (Pix → FVec3) → Pix → FVec3 := fun _ => fun _ => ⟨some 0, some 0, some 1⟩

/-- Constant identity R_hat field used by the C1 witness. -/
def wRhat : Pix → Mat33 := fun _ => ident33

/-- Witness for C1: a window of size 1; constant radius 1 and direction
(0,0,1) with identity M_inv for FALS; a constant depth image of 1 with
identity K on a 12x12 grid at pixel (5,5) for LINEMOD; identity and constant
collaborator instances with a finite resampled normal (0,0,1) for SRI. -/
theorem c1_witness :
    (wRad ((0, 0) : Pix) = some 1) ∧
    falsPreNormal 1 wVdir wMinv wRad ((0, 0) : Pix) ≠ vzero ∧
    ((5:Int) ≤ ((5, 5) : Pix).1 ∧ ((5, 5) : Pix).1 < 12 - 5 - 1 ∧
      (5:Int) ≤ ((5, 5) : Pix).2 ∧ ((5, 5) : Pix).2 < 12 - 5 - 1) ∧
    linemodPreNormal ident33 wDep ((5, 5) : Pix).1 ((5, 5) : Pix).2 ≠ vzero ∧
    (wConstN (sriCellNormals wRhat (wIdRemap wRad) (wConstNone (wIdRemap wRad))
        (wConstNone (wIdRemap wRad))) ((0, 0) : Pix) = ⟨some 0, some 0, some 1⟩) ∧
    ((⟨0, 0, 1⟩ : Vec3) ≠ vzero) ∧
    ((∃ w : Vec3, falsCompute 1 wVdir wMinv wInit wRad ((0, 0) : Pix) = someV w ∧
          norm_vec w = 1 ∧ w.z ≤ 0) ∧
     (norm_vec (linemodComputeImpl ident33 12 12 wDep wInit ((5, 5) : Pix)) = 1 ∧
        (linemodComputeImpl ident33 12 12 wDep wInit ((5, 5) : Pix)).z ≤ 0) ∧
     (∃ w : Vec3, sriCompute wIdRemap wConstNone wConstNone wRhat wConstN wRad
          ((0, 0) : Pix) = someV w ∧ norm_vec w = 1 ∧ w.z ≤ 0)) := by
  have hfin : wRad ((0, 0) : Pix) = some 1 := rfl
  have hfnz : falsPreNormal 1 wVdir wMinv wRad ((0, 0) : Pix) ≠ vzero := by
    intro hc
    have hz := congrArg Vec3.z hc
    rw [falsPreNormal, boxFilterV_one] at hz
    simp [falsB, wRad, wVdir, wMinv, mulMV, ident33, vdivs, vzero] at hz
  have hreg : (5:Int) ≤ ((5, 5) : Pix).1 ∧ ((5, 5) : Pix).1 < 12 - 5 - 1 ∧
      (5:Int) ≤ ((5, 5) : Pix).2 ∧ ((5, 5) : Pix).2 < 12 - 5 - 1 := by
    refine ⟨by norm_num, by norm_num, by norm_num, by norm_num⟩
  have haccum : linemodAccum wDep 5 5 = ⟨150, 0, 150, 0, 0⟩ := by
    simp [linemodAccum, linemodOffsets, laccumStep, wDep]
    norm_num
  have hlnz : linemodPreNormal ident33 wDep ((5, 5) : Pix).1 ((5, 5) : Pix).2 ≠ vzero := by
    intro hc
    have hz := congrArg Vec3.z hc
    rw [linemodPreNormal] at hz
    simp only [linemodDx, linemodDy, haccum] at hz
    simp [linemodKinv, ident33, multiply_by_K_inv, vcross, vzero, wDep] at hz
  have hsout : wConstN (sriCellNormals wRhat (wIdRemap wRad)
      (wConstNone (wIdRemap wRad)) (wConstNone (wIdRemap wRad))) ((0, 0) : Pix)
      = ⟨some 0, some 0, some 1⟩ := rfl
  have hsnz : (⟨0, 0, 1⟩ : Vec3) ≠ vzero := by
    intro hc
    have hz := congrArg Vec3.z hc
    simp [vzero] at hz
  exact ⟨hfin, hfnz, hreg, hlnz, hsout, hsnz,
    c1_normals_unit_and_camera_facing 1 wVdir wMinv wInit wRad ((0, 0) : Pix) 1
      hfin hfnz ident33 12 12 wDep wInit ((5, 5) : Pix) hreg hlnz
      wIdRemap wConstNone wConstNone wRhat wConstN wRad ((0, 0) : Pix)
      0 0 1 hsout hsnz⟩

theorem falsCompute_sentinel (ws : Nat) (V : Pix → Vec3) (Minv : Pix → Mat33)
    (points : Pix → Vec3) (r : Pix → FVal) (p : Pix) (h : r p = none) :
    falsCompute ws V Minv points r p = ⟨none, none, none⟩ := by
  unfold falsCompute
  rw [h]

theorem sriCellNormals_sentinel (Rhat : Pix → Mat33) (r r_theta r_phi : Pix → FVal)
    (q : Pix) (h : r q = none) :
    sriCellNormals Rhat r r_theta r_phi q = ⟨none, none, none⟩ := by
  unfold sriCellNormals
  rw [h]

/-- Scaling of a 3-vector by a scalar. -/
def vscale (s : Real) (v : Vec3) : Vec3 := ⟨s * v.x, s * v.y, s * v.z⟩

/-- Four-quadrant arctangent with the C library argument convention:
atan2 y x is the angle of the plane point (x, y). -/
def atan2 (y x : Real) : Real :=
  if 0 < x then Real.arctan (y / x)
  else if x < 0 then
    (if 0 ≤ y then Real.arctan (y / x) + Real.pi else Real.arctan (y / x) - Real.pi)
  else
    (if 0 < y then Real.pi / 2 else if y < 0 then -(Real.pi / 2) else 0)

theorem atan2_scale {s : Real} (hs : 0 < s) (y x : Real) :
    atan2 (s * y) (s * x) = atan2 y x := by
  unfold atan2
  have hq : s * y / (s * x) = y / x := mul_div_mul_left y x hs.ne.symm
  rcases lt_trichotomy x 0 with hx | hx | hx
  · have hsx : s * x < 0 := mul_neg_of_pos_of_neg hs hx
    rw [if_neg (not_lt.mpr hsx.le), if_neg (not_lt.mpr hx.le), if_pos hsx, if_pos hx, hq]
    have hy : 0 ≤ s * y ↔ 0 ≤ y := by
      constructor
      · intro h; nlinarith
      · intro h; positivity
    by_cases h0 : 0 ≤ y
    · rw [if_pos (hy.mpr h0), if_pos h0]
    · rw [if_neg (fun hc => h0 (hy.mp hc)), if_neg h0]
  · subst hx
    rw [mul_zero]
    have hy1 : 0 < s * y ↔ 0 < y := by
      constructor
      · intro h; nlinarith
      · intro h; positivity
    have hy2 : s * y < 0 ↔ y < 0 := by
      constructor
      · intro h; nlinarith
      · intro h; exact mul_neg_of_pos_of_neg hs h
    simp only [lt_self_iff_false, if_false]
    by_cases h0 : 0 < y
    · rw [if_pos (hy1.mpr h0), if_pos h0]
    · rw [if_neg (fun hc => h0 (hy1.mp hc)), if_neg h0]
      by_cases h1 : y < 0
      · rw [if_pos (hy2.mpr h1), if_pos h1]
      · rw [if_neg (fun hc => h1 (hy2.mp hc)), if_neg h1]
  · have hsx : 0 < s * x := mul_pos hs hx
    rw [if_pos hsx, if_pos hx, hq]

theorem norm_vec_vscale {s : Real} (hs : 0 ≤ s) (v : Vec3) :
    norm_vec (vscale s v) = s * norm_vec v := by
  unfold norm_vec vscale
  dsimp only
  have hsum : s * v.x * (s * v.x) + s * v.y * (s * v.y) + s * v.z * (s * v.z)
      = s ^ 2 * (v.x * v.x + v.y * v.y + v.z * v.z) := by ring
  rw [hsum, Real.sqrt_mul (sq_nonneg s), Real.sqrt_sq hs]

/-- Modelled from the spec: the pinhole back-projection collaborator depthTo3d
(declared in the rgbd module outside this file), which maps pixel (u, v) at
depth d to the camera-frame point ((u - cx) d / fx, (v - cy) d / fy, d) with
fx = K(0,0), fy = K(1,1), cx = K(0,2), cy = K(1,2). -/
def backproject3 (K : Mat33) (d : Real) (u v : Int) : Vec3 :=
  ⟨((u : Real) - K.m02) * d / K.m00, ((v : Real) - K.m12) * d / K.m11, d⟩

/-- The azimuth computeThetaPhi assigns to a pixel whose back-projected point
has depth d: theta = atan2(X, Z) (line 113). -/
def thetaAt (K : Mat33) (d : Real) (u v : Int) : Real :=
  atan2 (backproject3 K d u v).x (backproject3 K d u v).z

/-- The elevation computeThetaPhi assigns: phi = asin(Y / |P|) where |P| is
the radius computed by computeRadius, i.e. norm_vec (line 116). -/
def phiAt (K : Mat33) (d : Real) (u v : Int) : Real :=
  Real.arcsin ((backproject3 K d u v).y / norm_vec (backproject3 K d u v))

/-- Embedding of computeThetaPhi (lines 83-121): the four per-pixel grids of
cos theta, sin theta, cos phi, sin phi, obtained by back-projecting a
synthetic image of constant depth K(0,0) (the bogus depth K(0,0) * ones of
line 89) through K.  The grids are functions of K alone; no measured depth
enters. -/
def computeThetaPhi (K : Mat33) :
    (Int → Int → Real) × (Int → Int → Real) × (Int → Int → Real) × (Int → Int → Real) :=
  (fun u v => Real.cos (thetaAt K K.m00 u v),
   fun u v => Real.sin (thetaAt K K.m00 u v),
   fun u v => Real.cos (phiAt K K.m00 u v),
   fun u v => Real.sin (phiAt K K.m00 u v))

/-- The spec's formulation of the angular precompute: the azimuth of the
unit-depth back-projected grid point. -/
def thetaUnitSpec (K : Mat33) (u v : Int) : Real := thetaAt K 1 u v

/-- The spec's formulation of the elevation at unit depth. -/
def phiUnitSpec (K : Mat33) (u v : Int) : Real := phiAt K 1 u v

theorem backproject3_scale (K : Mat33) (u v : Int) :
    backproject3 K K.m00 u v = vscale K.m00 (backproject3 K 1 u v) := by
  unfold backproject3 vscale
  rw [Vec3.ext_iff2]
  refine ⟨?_, ?_, ?_⟩ <;> dsimp only <;> ring

theorem thetaAt_depth_irrelevant (K : Mat33) (hfx : 0 < K.m00) (u v : Int) :
    thetaAt K K.m00 u v = thetaUnitSpec K u v := by
  unfold thetaUnitSpec thetaAt
  rw [backproject3_scale]
  unfold vscale
  exact atan2_scale hfx _ _

theorem phiAt_depth_irrelevant (K : Mat33) (hfx : 0 < K.m00) (u v : Int) :
    phiAt K K.m00 u v = phiUnitSpec K u v := by
  unfold phiUnitSpec phiAt
  rw [backproject3_scale, norm_vec_vscale hfx.le]
  have harg : (vscale K.m00 (backproject3 K 1 u v)).y
      / (K.m00 * norm_vec (backproject3 K 1 u v))
      = (backproject3 K 1 u v).y / norm_vec (backproject3 K 1 u v) := by
    unfold vscale
    exact mul_div_mul_left _ _ hfx.ne.symm
  rw [harg]

/-- C8: the angular-geometry precompute produces exactly the four grids
cos theta, sin theta, cos phi, sin phi of the angles of the unit-depth
back-projection through K, theta = atan2(X, Z) and phi = asin(Y / |P|); the
synthetic constant depth K(0,0) used by the code leaves the angles equal to
the unit-depth angles whenever the focal length K(0,0) is positive, and the
grids are functions of K alone, independent of any measured depth. -/
theorem c8_compute_theta_phi (K : Mat33) (hfx : 0 < K.m00) (u v : Int) :
    (computeThetaPhi K).1 u v = Real.cos (thetaUnitSpec K u v) ∧
    (computeThetaPhi K).2.1 u v = Real.sin (thetaUnitSpec K u v) ∧
    (computeThetaPhi K).2.2.1 u v = Real.cos (phiUnitSpec K u v) ∧
    (computeThetaPhi K).2.2.2 u v = Real.sin (phiUnitSpec K u v) := by
  unfold computeThetaPhi
  dsimp only
  rw [thetaAt_depth_irrelevant K hfx, phiAt_depth_irrelevant K hfx]
  exact ⟨rfl, rfl, rfl, rfl⟩

/-- Witness for C8 at the identity intrinsic matrix and pixel (0, 0). -/
theorem c8_witness :
    0 < ident33.m00 ∧
    ((computeThetaPhi ident33).1 0 0 = Real.cos (thetaUnitSpec ident33 0 0) ∧
     (computeThetaPhi ident33).2.1 0 0 = Real.sin (thetaUnitSpec ident33 0 0) ∧
     (computeThetaPhi ident33).2.2.1 0 0 = Real.cos (phiUnitSpec ident33 0 0) ∧
     (computeThetaPhi ident33).2.2.2 0 0 = Real.sin (phiUnitSpec ident33 0 0)) := by
  have hfx : 0 < ident33.m00 := by
    unfold ident33
    norm_num
  exact ⟨hfx, c8_compute_theta_phi ident33 hfx 0 0⟩

end

/-- OpenCV element depth code CV_8U, the type of a default-constructed Mat. -/
def CV_8U : Int := 0

/-- OpenCV element depth code CV_16U. -/
def CV_16U : Int := 2

/-- OpenCV element depth code CV_32S. -/
def CV_32S : Int := 4

/-- OpenCV element depth code CV_32F, single precision. -/
def CV_32F : Int := 5

/-- OpenCV element depth code CV_64F, double precision. -/
def CV_64F : Int := 6

/-- Method tag RGBD_NORMALS_METHOD_FALS of cv::RgbdNormals. -/
def METHOD_FALS : Int := 0

/-- Method tag RGBD_NORMALS_METHOD_LINEMOD of cv::RgbdNormals. -/
def METHOD_LINEMOD : Int := 1

/-- Method tag RGBD_NORMALS_METHOD_SRI of cv::RgbdNormals. -/
def METHOD_SRI : Int := 2

/-- A cv::Mat holding the intrinsic matrix: shape, element type code, and
entries idealized as rationals. -/
structure MatK where
  rows : Nat
  cols : Nat
  mtype : Int
  entry : Nat → Nat → Rat

/-- The shape and type pre-check of RgbdNormalsImpl::validate (lines
194-195): any mismatch of cols, rows or type returns false. -/
def kSameShape (A B : MatK) : Bool :=
  A.cols == B.cols && A.rows == B.rows && A.mtype == B.mtype

/-- The element-wise K comparison of validate (line 196): K_test is true
exactly when countNonZero(K_ori != K_ori_) is zero, i.e. all entries over the
common shape coincide. -/
def kElemEq (A B : MatK) : Bool :=
  (List.range A.rows).all fun i =>
    (List.range A.cols).all fun j => A.entry i j == B.entry i j

/-- The configuration stored inside an RgbdNormalsImpl (lines 167-205):
rows_, cols_, depth_, the original K_ori_, window_size_ and method_. -/
structure ImplState where
  rows : Int
  cols : Int
  depth : Int
  Kori : MatK
  window : Int
  method : Int

/-- Embedding of RgbdNormalsImpl::validate (lines 191-199).  The source
compares rows, window size, depth, method and element-wise K equality, but
its cols conjunct is written as the assignment `cols = cols_` whose value is
the stored cols_, truthy exactly when the stored cols_ is nonzero, so the
current cols parameter is never actually compared. -/
def validate (st : ImplState) (rows cols depth : Int) (Kori : MatK)
    (window method : Int) : Bool :=
  if !kSameShape Kori st.Kori then false
  else
    (rows == st.rows) && (st.cols != 0) && (window == st.window) &&
      (depth == st.depth) && kElemEq Kori st.Kori && (method == st.method)

/-- Embedding of RgbdNormals::initialize (lines 776-786): a fresh estimator
is constructed and cache-built exactly when no impl exists yet or the stored
impl fails to validate against the current configuration. -/
def initializeRebuilds (impl : Option ImplState) (rows cols depth : Int)
    (K : MatK) (window method : Int) : Bool :=
  match impl with
  | none => true
  | some st => !(validate st rows cols depth K window method)

/-- A concrete 3x3 single-precision intrinsic matrix used as failing input. -/
def wK0 : MatK := ⟨3, 3, CV_32F, fun i j => if i == j then 1 else 0⟩

/-- C4: the cols conjunct of validate is an assignment, not a comparison.
With a stored configuration of 480 rows and 640 cols, a current
configuration identical except for cols = 600 still validates, so initialize
performs no rebuild despite the cols change, contrary to the claim that any
single-field change, including a cols change, invalidates the cache. -/
theorem c4_validate_cols_assignment_bug :
    validate ⟨480, 640, CV_32F, wK0, 5, METHOD_FALS⟩ 480 600 CV_32F wK0 5 METHOD_FALS
      = true ∧
    initializeRebuilds (some ⟨480, 640, CV_32F, wK0, 5, METHOD_FALS⟩)
      480 600 CV_32F wK0 5 METHOD_FALS = false ∧
    (600 : Int) ≠ 640 := by
  refine ⟨by decide, by decide, by decide⟩

/-- A full dispatcher configuration as passed to the RgbdNormals
constructor. -/
structure Config where
  rows : Int
  cols : Int
  depth : Int
  K : MatK
  window : Int
  method : Int

/-- Embedding of the constructor asserts of RgbdNormals (lines 688-689):
working precision single or double, K of shape 3x3. -/
def ctorAsserts (c : Config) : Bool :=
  (c.depth == CV_32F || c.depth == CV_64F) && (c.K.cols == 3 && c.K.rows == 3)

/-- Embedding of the asserts of initialize_normals_impl (lines 736-741), run
at first compute: positive dimensions, supported precision, window size in
{1,3,5,7}, K of shape 3x3 with single- or double-precision elements, and a
recognized method. -/
def initAsserts (c : Config) : Bool :=
  (decide (0 < c.rows) && decide (0 < c.cols) &&
      (c.depth == CV_32F || c.depth == CV_64F)) &&
    (c.window == 1 || c.window == 3 || c.window == 5 || c.window == 7) &&
    (c.K.cols == 3 && c.K.rows == 3 && (c.K.mtype == CV_32F || c.K.mtype == CV_64F)) &&
    (c.method == METHOD_FALS || c.method == METHOD_LINEMOD || c.method == METHOD_SRI)

/-- A configuration is accepted when neither the constructor nor the first
compute raises a precondition failure. -/
def configAccepted (c : Config) : Bool := ctorAsserts c && initAsserts c

/-- The rejection condition exactly as the claim states it. -/
def specRejected (c : Config) : Prop :=
  c.rows ≤ 0 ∨ c.cols ≤ 0 ∨ ¬(c.depth = CV_32F ∨ c.depth = CV_64F) ∨
  ¬(c.window = 1 ∨ c.window = 3 ∨ c.window = 5 ∨ c.window = 7) ∨
  ¬(c.method = METHOD_FALS ∨ c.method = METHOD_LINEMOD ∨ c.method = METHOD_SRI) ∨
  ¬(c.K.rows = 3 ∧ c.K.cols = 3)

/-- A configuration valid per the claim but carrying an integer-typed K. -/
def wCfgIntK : Config := ⟨480, 640, CV_32F, ⟨3, 3, CV_32S, fun _ _ => 1⟩, 5, METHOD_FALS⟩

/-- C9 counterexample: a configuration with positive dimensions, single
working precision, window 5, method FALS and a 3x3 K whose element type is
CV_32S matches none of the claim's rejection conditions, yet the code's
assert on the K element type (line 738) rejects it. -/
theorem c9_counterexample :
    configAccepted wCfgIntK = false ∧ ¬ specRejected wCfgIntK := by
  refine ⟨by decide, ?_⟩
  unfold specRejected
  decide

/-- C9 (amended): a configuration fails a precondition check, at construction
or at first compute, exactly when rows or cols is nonpositive, the working
precision is not single or double, the window size is outside {1,3,5,7}, the
method is unrecognized, K is not 3x3, or K's element type is not single- or
double-precision floating point. -/
theorem c9_config_rejection (c : Config) :
    configAccepted c = false ↔
      (c.rows ≤ 0 ∨ c.cols ≤ 0 ∨ ¬(c.depth = CV_32F ∨ c.depth = CV_64F) ∨
       ¬(c.window = 1 ∨ c.window = 3 ∨ c.window = 5 ∨ c.window = 7) ∨
       ¬(c.method = METHOD_FALS ∨ c.method = METHOD_LINEMOD ∨ c.method = METHOD_SRI) ∨
       ¬(c.K.rows = 3 ∧ c.K.cols = 3) ∨
       ¬(c.K.mtype = CV_32F ∨ c.K.mtype = CV_64F)) := by
  have h : configAccepted c = true ↔
      (0 < c.rows ∧ 0 < c.cols ∧ (c.depth = CV_32F ∨ c.depth = CV_64F) ∧
       (c.window = 1 ∨ c.window = 3 ∨ c.window = 5 ∨ c.window = 7) ∧
       (c.method = METHOD_FALS ∨ c.method = METHOD_LINEMOD ∨ c.method = METHOD_SRI) ∧
       (c.K.rows = 3 ∧ c.K.cols = 3) ∧
       (c.K.mtype = CV_32F ∨ c.K.mtype = CV_64F)) := by
    simp only [configAccepted, ctorAsserts, initAsserts, Bool.and_eq_true,
      Bool.or_eq_true, beq_iff_eq, decide_eq_true_eq]
    omega
  constructor
  · intro hf
    by_contra hcon
    push_neg at hcon
    have ht : configAccepted c = true := by
      rw [h]
      tauto
    rw [hf] at ht
    exact Bool.false_ne_true ht
  · intro hdis
    rw [Bool.eq_false_iff]
    intro ht
    rw [h] at ht
    obtain ⟨h1, h2, h3, h4, h5, h6, h7⟩ := ht
    rcases hdis with d | d | d | d | d | d | d
    · omega
    · omega
    · exact d h3
    · exact d h4
    · exact d h5
    · exact d h6
    · exact d h7

/-- A cv::Mat of image data: shape, channel count, element type code, and
data idealized as rationals indexed by channel, row, column. -/
structure MatM where
  rows : Nat
  cols : Nat
  channels : Nat
  depth : Int
  val : Nat → Nat → Nat → Rat

/-- A default-constructed cv::Mat: zero rows and cols, a single channel,
element type CV_8U. -/
def emptyMat : MatM := ⟨0, 0, 1, CV_8U, fun _ _ _ => 0⟩

/-- Precision conversion (cv::Mat::convertTo): the data, idealized over the
rationals, is unchanged; only the element type code changes. -/
def convertTo (m : MatM) (d : Int) : MatM := { m with depth := d }

/-- Channel split (cv::split): one single-channel matrix per channel of the
input; a std::vector of m.channels() entries. -/
def splitChannels (m : MatM) : List MatM :=
  (List.range m.channels).map fun ch =>
    { rows := m.rows, cols := m.cols, channels := 1, depth := m.depth,
      val := fun _ i j => m.val ch i j }

/-- Embedding of the depth-argument selection of RgbdNormals::operator()
(lines 824-867): the local points3d is filled from the input only inside the
FALS/SRI branch (line 825); in the LINEMOD branch it remains the
default-constructed empty matrix, and for a 3-channel input the code splits
that matrix and reads channels[2].  The std::vector access channels[2] is
out of bounds when fewer than three channels exist, surfaced here as
Option.none. -/
def linemodDepthArg (workingDepth : Int) (method : Int) (input : MatM) : Option MatM :=
  let points3d : MatM :=
    if method = METHOD_SRI ∨ method = METHOD_FALS then
      (if input.depth = workingDepth then input else convertTo input workingDepth)
    else emptyMat
  if input.channels = 3 then (splitChannels points3d).get? 2
  else some input

/-- A 3-channel single-precision 480x640 point matrix used as failing input. -/
def wInput3 : MatM := ⟨480, 640, 3, CV_32F, fun _ _ _ => 1⟩

/-- C7: with the LINEMOD method and a 3-channel point-field input, the
dispatcher splits the empty local points3d instead of the converted input,
so the channels[2] access is out of bounds (none); the extraction the claim
describes — the third channel of the input converted to the working
precision — does exist (isSome) and is what the surrounding code plainly
intended. -/
theorem c7_linemod_splits_empty_matrix :
    linemodDepthArg CV_32F METHOD_LINEMOD wInput3 = none ∧
    ((splitChannels (convertTo wInput3 CV_32F)).get? 2).isSome = true := by
  refine ⟨rfl, rfl⟩
